import Mathlib

/-!
Verification development for the POD generator server (src/server.js).

The JavaScript source is shallowly embedded: each function of the server is
translated to an executable Lean definition operating on explicit data.
Machine-level host behaviour (string conversion of spreadsheet cells, the
outcome of one headless-browser PDF rendering attempt, the host string-date
parser) is passed in as an explicit oracle parameter, so every definition
stays a pure, executable function.  Times are handled in UTC, matching the
server deployment the code targets.
-/

namespace PodGen

/-! ## Decimal rendering of numbers (JS template `${n}` / `String(n)`) -/

/-- Decimal digit character for a value below ten. -/
def digitChar : Nat → Char
  | 0 => '0' | 1 => '1' | 2 => '2' | 3 => '3' | 4 => '4'
  | 5 => '5' | 6 => '6' | 7 => '7' | 8 => '8' | _ => '9'

/-- Decimal digit list, structurally recursive on a fuel bound so that it
reduces inside the kernel; the fuel never runs out when it starts at the
number itself. -/
def natDigitsGo : Nat → Nat → List Char
  | _, 0 => []
  | 0, _+1 => []
  | fuel+1, n+1 => natDigitsGo fuel ((n+1) / 10) ++ [digitChar ((n+1) % 10)]

/-- Decimal digit list of a positive number (empty on zero). -/
def natDigits (n : Nat) : List Char := natDigitsGo n n

theorem natDigitsGo_fuel : ∀ (n fuel : Nat), n ≤ fuel → natDigitsGo fuel n = natDigits n := by
  intro n
  induction n using Nat.strong_induction_on with
  | _ n ih =>
    intro fuel h
    match n, fuel with
    | 0, 0 => rfl
    | 0, fuel+1 => rfl
    | n+1, fuel+1 =>
      have hdiv : (n+1) / 10 < n+1 := Nat.div_lt_self (Nat.succ_pos n) (by omega)
      show natDigitsGo fuel ((n+1) / 10) ++ [digitChar ((n+1) % 10)] = natDigits (n+1)
      rw [ih _ hdiv fuel (by omega)]
      show _ = natDigitsGo n ((n+1) / 10) ++ [digitChar ((n+1) % 10)]
      rw [ih _ hdiv n (by omega)]

/-- Recurrence satisfied by `natDigits` on positive numbers. -/
theorem natDigits_succ (n : Nat) :
    natDigits (n+1) = natDigits ((n+1) / 10) ++ [digitChar ((n+1) % 10)] := by
  have hdiv : (n+1) / 10 < n+1 := Nat.div_lt_self (Nat.succ_pos n) (by omega)
  show natDigitsGo n ((n+1) / 10) ++ [digitChar ((n+1) % 10)] = _
  rw [natDigitsGo_fuel ((n+1) / 10) n (by omega)]

/-- Decimal rendering of a natural number, as JS renders a nonnegative
integer-valued number. -/
def natToString (n : Nat) : String :=
  if n = 0 then "0" else String.mk (natDigits n)

/-- Decimal rendering of an integer, as JS `String(n)` for an
integer-valued number. -/
def intToString (i : Int) : String :=
  if i < 0 then "-" ++ natToString i.natAbs else natToString i.toNat

/-- Value of a digit list, used to invert `natDigits`. -/
def unDigits (l : List Char) : Nat :=
  l.foldl (fun acc c => acc * 10 + (c.toNat - 48)) 0

theorem digitChar_toNat (m : Nat) (h : m < 10) : (digitChar m).toNat - 48 = m := by
  interval_cases m <;> rfl

theorem unDigits_append_digit (l : List Char) (c : Char) :
    unDigits (l ++ [c]) = unDigits l * 10 + (c.toNat - 48) := by
  simp [unDigits, List.foldl_append]

theorem unDigits_natDigits (n : Nat) : unDigits (natDigits n) = n := by
  induction n using Nat.strong_induction_on with
  | _ n ih =>
    match n with
    | 0 => simp [natDigits, natDigitsGo, unDigits]
    | n+1 =>
      rw [natDigits_succ, unDigits_append_digit, digitChar_toNat _ (Nat.mod_lt _ (by omega)),
        ih ((n+1) / 10) (Nat.div_lt_self (Nat.succ_pos n) (by omega))]
      omega

theorem unDigits_natToString (n : Nat) : unDigits (natToString n).data = n := by
  by_cases h : n = 0
  · subst h; rfl
  · rw [natToString, if_neg h]
    exact unDigits_natDigits n

theorem natToString_injective : Function.Injective natToString := by
  intro m n h
  have : unDigits (natToString m).data = unDigits (natToString n).data := by rw [h]
  rwa [unDigits_natToString, unDigits_natToString] at this

theorem natDigits_ne_nil (n : Nat) (h : 0 < n) : natDigits n ≠ [] := by
  match n with
  | n+1 => rw [natDigits_succ]; simp

theorem natToString_length_pos (n : Nat) : 0 < (natToString n).length := by
  by_cases h : n = 0
  · subst h; decide
  · rw [natToString, if_neg h]
    have := natDigits_ne_nil n (Nat.pos_of_ne_zero h)
    show 0 < (natDigits n).length
    cases hd : natDigits n with
    | nil => exact absurd hd this
    | cons a l => simp

/-! ## JS string host primitives used by the upload route -/

/-- Characters the ECMAScript `trim` removes (WhiteSpace and LineTerminator). -/
def isJsWhitespaceChar (c : Char) : Bool :=
  (0x9 ≤ c.toNat && c.toNat ≤ 0xD) || c.toNat == 0x20 || c.toNat == 0xA0 ||
  c.toNat == 0x1680 || (0x2000 ≤ c.toNat && c.toNat ≤ 0x200A) ||
  c.toNat == 0x2028 || c.toNat == 0x2029 || c.toNat == 0x202F ||
  c.toNat == 0x205F || c.toNat == 0x3000 || c.toNat == 0xFEFF

/-- JS `String.prototype.trim`: strip leading and trailing whitespace. -/
def jsTrim (s : String) : String :=
  String.mk (((s.data.dropWhile isJsWhitespaceChar).reverse.dropWhile
    isJsWhitespaceChar).reverse)

/-- JS `String.prototype.padStart(2, "0")`. -/
def padStart2 (s : String) : String :=
  if s.length = 0 then "00" else if s.length = 1 then "0" ++ s else s

/-- Node `path.join` restricted to plain segments, as used by the server. -/
def joinPath (a b : String) : String := a ++ "/" ++ b

/-! ## Date formatting (src/server.js lines 57-79, `formatDate`)

The input cell value of the `date` column is one of: a JS number (modelled
as a rational, covering the spreadsheet serials the sheet reader produces),
a `Date` object (carrying its epoch milliseconds, or nothing when it is an
Invalid Date), a string (interpreted through the host `new Date(string)`
parser, passed in as an oracle), or null/undefined. -/

inductive JsValue where
  | nullish
  | num (q : Rat)
  | str (s : String)
  | date (ms? : Option Int)
deriving DecidableEq

/-- JS falsiness of the values `formatDate` can receive (`!value`).
A `Date` object is always truthy; `0`, `""`, `null` and `undefined` are
falsy.  (A NaN number is also falsy in JS; `Rat` has no NaN, so numeric
inputs here are always finite.) -/
def jsFalsy : JsValue → Bool
  | .nullish => true
  | .num q => q == 0
  | .str s => s == ""
  | .date _ => false

/-- JS `Math.floor` on a rational number. -/
def ratFloor (q : Rat) : Int := q.num / (q.den : Int)

/-- ECMAScript time-value range check: `new Date(ms)` is an Invalid Date
iff |ms| exceeds 8.64e15. -/
def newDateFromMs (ms : Int) : Option Int :=
  if ms.natAbs ≤ 8640000000000000 then some ms else none

/-- Proleptic-Gregorian civil date (year, month 1..12, day 1..31) of a day
number counted from the Unix epoch; the arithmetic ECMAScript prescribes
for `getUTCFullYear`/`getUTCMonth`/`getUTCDate`. -/
def civilFromDays (z0 : Int) : Int × Int × Int :=
  let z := z0 + 719468
  let era := z / 146097
  let doe := z - era * 146097
  let yoe := (doe - doe / 1460 + doe / 36524 - doe / 146096) / 365
  let y := yoe + era * 400
  let doy := doe - (365 * yoe + yoe / 4 - yoe / 100)
  let mp := (5 * doy + 2) / 153
  let d := doy - (153 * mp + 2) / 5 + 1
  let m := if mp < 10 then mp + 3 else mp - 9
  (if m ≤ 2 then y + 1 else y, m, d)

/-- Epoch day number of a time value (`Day(t)` in ECMAScript). -/
def dayFromMs (ms : Int) : Int := ms / 86400000

/-- JS `d.getFullYear()` for a valid date, on a UTC host. -/
def dateGetFullYear (ms : Int) : Int := (civilFromDays (dayFromMs ms)).1

/-- JS `d.getMonth()` (0-based) for a valid date, on a UTC host. -/
def dateGetMonth (ms : Int) : Int := (civilFromDays (dayFromMs ms)).2.1 - 1

/-- JS `d.getDate()` (day of month) for a valid date, on a UTC host. -/
def dateGetDate (ms : Int) : Int := (civilFromDays (dayFromMs ms)).2.2

/-- Lines 74-78 of src/server.js: render a valid date as zero-padded
`DD-MM-YYYY`. -/
def formatDateFromMs (ms : Int) : String :=
  padStart2 (intToString (dateGetDate ms)) ++ "-" ++
    padStart2 (intToString (dateGetMonth ms + 1)) ++ "-" ++
    intToString (dateGetFullYear ms)

/-- Lines 60-70 of src/server.js: the `Date` value `d` built from a truthy
input (its epoch milliseconds when valid, `none` for an Invalid Date, on
which `isNaN(d.getTime())` fires). -/
def dateFromValue (parse : String → Option Int) : JsValue → Option Int
  | .num q => newDateFromMs (ratFloor (q - 25569) * 86400 * 1000)
  | .date ms? => ms?
  | .str s => parse s
  | .nullish => none

/-- Lines 57-79 of src/server.js: `formatDate`.  `parse` is the host
`new Date(string)` parser: `some ms` for a parseable string, `none` when
the result is an Invalid Date. -/
def formatDate (parse : String → Option Int) (value : JsValue) : String :=
  if jsFalsy value then "" else
  match dateFromValue parse value with
  | none => ""
  | some ms => formatDateFromMs ms

/-! ## Rows and the sanitizer/partitioner (src/server.js lines 88-121) -/

/-- One parsed spreadsheet row.  `awb` carries the host string conversion
`String(row.awb)` of the cell when the field is present, `none` when the
field is null/undefined; `date` is the raw `date` cell.  The remaining
template-only fields do not influence any claimed behaviour and are not
modelled. -/
structure Row where
  awb : Option String
  date : JsValue
deriving DecidableEq

/-- JS `String(row.awb)`: the string itself when present, the text
`"undefined"` for an absent field.  (Rows reaching task construction have
always passed the AWB filter, so the `none` branch is unreachable there.) -/
def jsStringOfAwb (r : Row) : String :=
  match r.awb with
  | some s => s
  | none => "undefined"

/-- Line 88 of src/server.js: keep rows whose `awb` is non-null and not
whitespace-only. -/
def rowsWithAwb (rows : List Row) : List Row :=
  rows.filter (fun r =>
    match r.awb with
    | none => false
    | some s => !(jsTrim s == ""))

/-- Line 16 of src/server.js. -/
def MAX_PER_ZIP : Nat := 3000

/-- Characters replaced by `_` in `sanitizeForFilename`
(`/[<>:"\/\\|?*\x00-\x1f]/`). -/
def isFileIllegalChar (c : Char) : Bool :=
  c == '<' || c == '>' || c == ':' || c == '"' || c == '/' || c == '\\' ||
  c == '|' || c == '?' || c == '*' || c.toNat ≤ 0x1f

/-- JS `.replace(/[<>:"\/\\|?*\x00-\x1f]/g, "_")`. -/
def replaceIllegalChars (s : String) : String :=
  String.mk (s.data.map (fun c => if isFileIllegalChar c then '_' else c))

/-- Line 100 of src/server.js: replace path-illegal characters by `_`,
trim, and fall back to `"awb"` when the result is empty. -/
def sanitizeForFilename (s : String) : String :=
  if jsTrim (replaceIllegalChars s) = "" then "awb" else jsTrim (replaceIllegalChars s)

/-- One entry of the `tasks` array built in lines 102-121 of
src/server.js. -/
structure PodTask where
  row : Row
  rawAwb : String
  filename : String
  folder : String
  index : Nat
deriving DecidableEq

/-- Loop body of lines 104-121 of src/server.js.  `awbCount` is the state
of the `awbCount` Map (absent keys read as 0, via `get(...) || 0`). -/
def mkTasksAux (workDir : String) (awbCount : String → Nat) (index : Nat) :
    List Row → List PodTask
  | [] => []
  | row :: rest =>
    let rawAwb := jsStringOfAwb row
    let count := awbCount rawAwb + 1
    let awbCount' := fun s => if s = rawAwb then count else awbCount s
    let baseName :=
      if count = 1 then sanitizeForFilename rawAwb
      else sanitizeForFilename rawAwb ++ "_" ++ natToString count
    let zipIndex := index / MAX_PER_ZIP + 1
    let folder := joinPath workDir ("part" ++ natToString zipIndex)
    { row := row, rawAwb := rawAwb,
      filename := joinPath folder (baseName ++ ".pdf"),
      folder := folder, index := index }
      :: mkTasksAux workDir awbCount' (index + 1) rest

/-- Lines 99-121 of src/server.js: build the full task list from the
retained rows (the Map starts empty, the index at 0). -/
def mkTasks (workDir : String) (rows : List Row) : List PodTask :=
  mkTasksAux workDir (fun _ => 0) 0 rows

/-- Filename base assigned to the occurrence number `count` of a raw AWB
(line 111 of src/server.js). -/
def baseNameFor (rawAwb : String) (count : Nat) : String :=
  if count = 1 then sanitizeForFilename rawAwb
  else sanitizeForFilename rawAwb ++ "_" ++ natToString count

/-- Folder assigned to the task of ordinal `index` (lines 112-113 of
src/server.js). -/
def folderFor (workDir : String) (index : Nat) : String :=
  joinPath workDir ("part" ++ natToString (index / MAX_PER_ZIP + 1))

/-- Full task record produced for row `row` at ordinal `index` when it is
the `count`-th occurrence of its raw AWB. -/
def taskFor (workDir : String) (row : Row) (index count : Nat) : PodTask :=
  { row := row, rawAwb := jsStringOfAwb row,
    filename := joinPath (folderFor workDir index)
      (baseNameFor (jsStringOfAwb row) count ++ ".pdf"),
    folder := folderFor workDir index, index := index }

theorem mkTasksAux_length (workDir : String) (awbCount : String → Nat)
    (index : Nat) (rows : List Row) :
    (mkTasksAux workDir awbCount index rows).length = rows.length := by
  induction rows generalizing awbCount index with
  | nil => rfl
  | cons r rest ih => simp [mkTasksAux, ih]

theorem mkTasks_length (workDir : String) (rows : List Row) :
    (mkTasks workDir rows).length = rows.length :=
  mkTasksAux_length workDir (fun _ => 0) 0 rows

/-- Occurrence number of the row at position `i`, relative to a starting
Map state `awbCount`: the Map count plus the matches among earlier rows,
plus one. -/
def occurrenceFrom (awbCount : String → Nat) (rows : List Row) (i : Nat)
    (raw : String) : Nat :=
  awbCount raw + (rows.take i).countP (fun r => jsStringOfAwb r == raw) + 1

theorem mkTasksAux_getElem? (workDir : String) (awbCount : String → Nat)
    (index : Nat) (rows : List Row) (i : Nat) :
    (mkTasksAux workDir awbCount index rows)[i]? =
      rows[i]?.map (fun row =>
        taskFor workDir row (index + i)
          (occurrenceFrom awbCount rows i (jsStringOfAwb row))) := by
  induction rows generalizing awbCount index i with
  | nil => simp [mkTasksAux]
  | cons r rest ih =>
    match i with
    | 0 =>
      simp [mkTasksAux, taskFor, baseNameFor, folderFor, occurrenceFrom]
    | i+1 =>
      rw [mkTasksAux]
      simp only [List.getElem?_cons_succ]
      rw [ih]
      congr 1
      funext row
      have harr : index + 1 + i = index + (i + 1) := by omega
      have hocc :
          occurrenceFrom (fun s => if s = jsStringOfAwb r then awbCount (jsStringOfAwb r) + 1 else awbCount s)
            rest i (jsStringOfAwb row) =
          occurrenceFrom awbCount (r :: rest) (i + 1) (jsStringOfAwb row) := by
        simp only [occurrenceFrom, List.take_succ_cons, List.countP_cons]
        by_cases hr : jsStringOfAwb r = jsStringOfAwb row
        · simp [hr]; omega
        · have hb : (jsStringOfAwb r == jsStringOfAwb row) = false := by
            simpa using hr
          simp [Ne.symm hr, hb]
      rw [harr, hocc]

/-- Characterization of the task built for position `i`: the raw AWB is the
row's stringified cell, the occurrence number counts identical raw AWBs
among earlier retained rows, the folder is `part(floor(i/3000)+1)` and the
filename joins the folder with the (possibly `_k`-suffixed) sanitized
base name. -/
theorem mkTasks_getElem? (workDir : String) (rows : List Row) (i : Nat) :
    (mkTasks workDir rows)[i]? =
      rows[i]?.map (fun row =>
        taskFor workDir row i
          ((rows.take i).countP (fun r => jsStringOfAwb r == jsStringOfAwb row) + 1)) := by
  have := mkTasksAux_getElem? workDir (fun _ => 0) 0 rows i
  simpa [occurrenceFrom] using this

/-! ## Configuration (src/server.js lines 16-24)

Environment variables are modelled as `Option Int`: `none` when the
variable is unset or not numeric (JS `Number(...)` gives NaN, which is
falsy), `some v` for the integer value `v` (`some 0` is likewise falsy and
falls back to the default, exactly as `Number(x) || d` does). -/

/-- Line 20 of src/server.js: concurrency degree, clamped to at least 1;
default 1 on Railway (executable path set), 5 locally. -/
def CONCURRENT_PDFS (envVal : Option Int) (isRailwayEnv : Bool) : Nat :=
  (max 1 (match envVal with
    | some v => if v = 0 then (if isRailwayEnv then 1 else 5) else v
    | none => if isRailwayEnv then 1 else 5)).toNat

/-- Line 22 of src/server.js. -/
def MAX_PDF_RETRIES : Nat := 2

/-- Line 24 of src/server.js: browser-restart interval, clamped to at
least 500, default 600. -/
def BROWSER_RESTART_EVERY (envVal : Option Int) : Nat :=
  (max 500 (match envVal with
    | some v => if v = 0 then 600 else v
    | none => 600)).toNat

theorem one_le_CONCURRENT_PDFS (envVal : Option Int) (isRailwayEnv : Bool) :
    1 ≤ CONCURRENT_PDFS envVal isRailwayEnv := by
  unfold CONCURRENT_PDFS
  match envVal with
  | some v => split <;> split <;> omega
  | none => split <;> omega

theorem le_BROWSER_RESTART_EVERY (envVal : Option Int) :
    500 ≤ BROWSER_RESTART_EVERY envVal := by
  unfold BROWSER_RESTART_EVERY
  match envVal with
  | some v => split <;> omega
  | none => omega

/-! ## Conversion worker and retry (src/server.js lines 150-184)

One rendering attempt (`generateOnePdf`) is I/O against the headless
browser; its outcome is supplied by the oracle `pdfOutcome`, mapping
(task, browser instance, attempt number) to `none` on success and
`some errorMessage` when the attempt throws.  The function itself mirrors
how the code packages that outcome into a result object. -/

/-- Outcome record pushed into `results` (lines 168-170 of src/server.js). -/
structure ConversionResult where
  success : Bool
  rawAwb : String
  errMsg : Option String
deriving DecidableEq

/-- Oracle for one `generateOnePdf` attempt. -/
def PdfOracle : Type := PodTask → Nat → Nat → Option String

/-- Lines 152-174 of src/server.js: one conversion attempt, reported as a
result object carrying the task's raw AWB. -/
def generateOnePdf (pdfOutcome : PdfOracle) (task : PodTask)
    (browserInstance attempt : Nat) : ConversionResult :=
  match pdfOutcome task browserInstance attempt with
  | none => { success := true, rawAwb := task.rawAwb, errMsg := none }
  | some msg => { success := false, rawAwb := task.rawAwb, errMsg := some msg }

/-- Retry loop of lines 176-184 of src/server.js; `remaining` counts the
attempts still allowed, `attempt` is the 1-based attempt number. -/
def processWithRetryGo (pdfOutcome : PdfOracle) (task : PodTask)
    (browserInstance : Nat) : Nat → Nat → ConversionResult → ConversionResult
  | 0, _, lastResult => lastResult
  | n+1, attempt, _ =>
    let r := generateOnePdf pdfOutcome task browserInstance attempt
    if r.success then r
    else processWithRetryGo pdfOutcome task browserInstance n (attempt + 1) r

/-- Lines 176-184 of src/server.js: `processWithRetry`. -/
def processWithRetry (pdfOutcome : PdfOracle) (task : PodTask)
    (browserInstance : Nat) : ConversionResult :=
  processWithRetryGo pdfOutcome task browserInstance MAX_PDF_RETRIES 1
    { success := false, rawAwb := task.rawAwb, errMsg := some "unknown" }

/-- The (attempt number, browser instance) of every `generateOnePdf` call
`processWithRetry` performs, in order. -/
def retryTraceGo (pdfOutcome : PdfOracle) (task : PodTask) (browserInstance : Nat) :
    Nat → Nat → List (Nat × Nat)
  | 0, _ => []
  | n+1, attempt =>
    let r := generateOnePdf pdfOutcome task browserInstance attempt
    (attempt, browserInstance) ::
      (if r.success then [] else retryTraceGo pdfOutcome task browserInstance n (attempt + 1))

/-- Call trace of one `processWithRetry` run. -/
def retryTrace (pdfOutcome : PdfOracle) (task : PodTask) (browserInstance : Nat) :
    List (Nat × Nat) :=
  retryTraceGo pdfOutcome task browserInstance MAX_PDF_RETRIES 1

/-! ## Batch orchestrator (src/server.js lines 187-208) -/

/-- Split a list into consecutive chunks of `k` elements (the slices taken
by a loop stepping its start index by `k`). -/
def chunksOf (k : Nat) : List α → List (List α)
  | [] => []
  | a :: rest => (a :: rest).take k :: chunksOf k (rest.drop (k - 1))
termination_by l => l.length
decreasing_by simp [List.length_drop]; omega

/-- Inner loop of lines 192-202 of src/server.js: process one chunk in
concurrency batches against the chunk's browser instance
`browserInstance`, accumulating results in order. -/
def runBatches (pdfOutcome : PdfOracle) (concurrency browserInstance : Nat)
    (chunkTasks : List PodTask) : List ConversionResult :=
  ((chunksOf concurrency chunkTasks).map
    (fun batch => batch.map (fun t => processWithRetry pdfOutcome t browserInstance))).flatten

/-- Outer loop of lines 187-208 of src/server.js: take a chunk of
`restartEvery` tasks, launch a fresh browser (numbered `chunkIndex`),
process the chunk, close the browser, continue. -/
def runChunks (pdfOutcome : PdfOracle) (restartEvery concurrency : Nat) :
    Nat → List PodTask → List ConversionResult
  | _, [] => []
  | chunkIndex, t :: rest =>
    runBatches pdfOutcome concurrency chunkIndex ((t :: rest).take restartEvery) ++
      runChunks pdfOutcome restartEvery concurrency (chunkIndex + 1)
        (rest.drop (restartEvery - 1))
termination_by _ l => l.length
decreasing_by simp [List.length_drop]; omega

/-- Full processing pipeline over the task list: the `results` array after
the loop of lines 187-208 of src/server.js completes. -/
def runPipeline (pdfOutcome : PdfOracle) (restartEvery concurrency : Nat)
    (tasks : List PodTask) : List ConversionResult :=
  runChunks pdfOutcome restartEvery concurrency 0 tasks

/-- Browser lifecycle events of the orchestrator loop, in program order:
launch of instance `b`, one conversion under instance `b`, close of
instance `b`. -/
inductive EngineEvent where
  | launch (b : Nat)
  | convert (b : Nat)
  | close (b : Nat)
deriving DecidableEq

/-- Browser lifecycle trace of the loop of lines 187-208 of src/server.js:
each chunk launches a fresh instance, converts its tasks under it, then
closes it before the next chunk begins. -/
def engineTraceGo (restartEvery : Nat) : Nat → List PodTask → List EngineEvent
  | _, [] => []
  | chunkIndex, t :: rest =>
    (EngineEvent.launch chunkIndex ::
      ((t :: rest).take restartEvery).map (fun _ => EngineEvent.convert chunkIndex) ++
      [EngineEvent.close chunkIndex]) ++
      engineTraceGo restartEvery (chunkIndex + 1) (rest.drop (restartEvery - 1))
termination_by _ l => l.length
decreasing_by simp [List.length_drop]; omega

/-- Engine lifecycle trace of a full pipeline run. -/
def engineTrace (restartEvery : Nat) (tasks : List PodTask) : List EngineEvent :=
  engineTraceGo restartEvery 0 tasks

/-- Browser instances acquired during a run, in launch order. -/
def launchesOf (trace : List EngineEvent) : List Nat :=
  trace.filterMap (fun e =>
    match e with
    | .launch b => some b
    | _ => none)

/-! ## Upload route (src/server.js lines 82-237) -/

/-- Line 94 of src/server.js: the working directory is the fixed path
`<cwd>/work`, independent of the request. -/
def workDirOf (cwd : String) : String := joinPath cwd "work"

/-- Line 217 of src/server.js: the archive path is the fixed
`<cwd>/POD_ZIPS.zip`, independent of the request. -/
def finalZipPathOf (cwd : String) : String := joinPath cwd "POD_ZIPS.zip"

/-- Filesystem side effects the route performs, in program order.
`removeDir` models the `rmSync` of a pre-existing working directory
(line 95, a no-op when the directory does not exist). -/
inductive FsEffect where
  | removeDir (p : String)
  | makeDir (p : String)
  | writeFile (p : String)
deriving DecidableEq

/-- Response of the upload route. -/
inductive UploadOutcome where
  | badRequest (message : String)
  | download (zipPath name : String)
deriving DecidableEq

/-- Line 145 of src/server.js: first-occurrence-ordered distinct folders
(`[...new Set(tasks.map(t => t.folder))]`). -/
def uniqueFolders (tasks : List PodTask) : List String :=
  (tasks.map (fun t => t.folder)).eraseDups

/-- Lines 82-231 of src/server.js: the upload route, returning the
response together with the filesystem effects performed.  Rejection on
zero retained rows happens before the working directory is touched; on
success the working directory is deleted and recreated, the partition
folders are created, each successful conversion writes its PDF, and the
archive is written last. -/
def handleUpload (pdfOutcome : PdfOracle) (envConc envRestart : Option Int)
    (isRailwayEnv : Bool) (cwd : String) (rows : List Row) :
    UploadOutcome × List FsEffect :=
  let retained := rowsWithAwb rows
  if retained.length = 0 then
    (UploadOutcome.badRequest "No rows with AWB found in the Excel file.", [])
  else
    let workDir := workDirOf cwd
    let tasks := mkTasks workDir retained
    let results := runPipeline pdfOutcome (BROWSER_RESTART_EVERY envRestart)
      (CONCURRENT_PDFS envConc isRailwayEnv) tasks
    let finalZipPath := finalZipPathOf cwd
    (UploadOutcome.download finalZipPath "POD_ZIPS.zip",
      FsEffect.removeDir workDir :: FsEffect.makeDir workDir ::
        ((uniqueFolders tasks).map FsEffect.makeDir ++
          (tasks.zip results).filterMap (fun p =>
            if p.2.success then some (FsEffect.writeFile p.1.filename) else none) ++
          [FsEffect.writeFile finalZipPath]))

/-! ## Auxiliary facts about the string model -/

theorem string_data_inj {a b : String} (h : a.data = b.data) : a = b := by
  cases a
  cases b
  exact congrArg String.mk h

theorem string_append_cancel_left {a x y : String} (h : a ++ x = a ++ y) : x = y := by
  apply string_data_inj
  have hd : a.data ++ x.data = a.data ++ y.data := by
    rw [← String.data_append, ← String.data_append, h]
  exact List.append_cancel_left hd

theorem string_append_cancel_right {a x y : String} (h : x ++ a = y ++ a) : x = y := by
  apply string_data_inj
  have hd : x.data ++ a.data = y.data ++ a.data := by
    rw [← String.data_append, ← String.data_append, h]
  exact (List.append_inj' hd rfl).1

theorem digitChar_mem_digits (m : Nat) :
    digitChar m ∈ ['0','1','2','3','4','5','6','7','8','9'] := by
  unfold digitChar
  split <;> decide

theorem digitChar_isDigit (m : Nat) : (digitChar m).isDigit = true := by
  unfold digitChar
  split <;> decide

theorem digitChar_ne_slash (m : Nat) : digitChar m ≠ '/' := by
  have hd := digitChar_isDigit m
  intro heq
  rw [heq] at hd
  exact absurd hd (by decide)

theorem mem_natDigits_isDigit (n : Nat) (c : Char) (hc : c ∈ natDigits n) :
    c.isDigit = true := by
  induction n using Nat.strong_induction_on with
  | _ n ih =>
    match n with
    | 0 => simp [natDigits, natDigitsGo] at hc
    | n+1 =>
      rw [natDigits_succ] at hc
      rcases List.mem_append.1 hc with h | h
      · exact ih ((n+1) / 10) (Nat.div_lt_self (Nat.succ_pos n) (by omega)) h
      · rcases List.mem_singleton.1 h with rfl
        exact digitChar_isDigit _

theorem mem_natToString_isDigit (n : Nat) (c : Char) (hc : c ∈ (natToString n).data) :
    c.isDigit = true := by
  by_cases h : n = 0
  · subst h
    rcases List.mem_singleton.1 hc with rfl
    decide
  · rw [natToString, if_neg h] at hc
    exact mem_natDigits_isDigit n c hc

theorem slash_not_mem_natToString (n : Nat) : '/' ∉ (natToString n).data := by
  intro hmem
  have := mem_natToString_isDigit n '/' hmem
  simp at this

/-- Characters of the replace-then-trim result are characters of the
replaced string. -/
theorem mem_jsTrim_subset (s : String) (c : Char) (hc : c ∈ (jsTrim s).data) :
    c ∈ s.data := by
  unfold jsTrim at hc
  simp only [List.mem_reverse] at hc
  have h1 := (List.dropWhile_sublist isJsWhitespaceChar).mem hc
  simp only [List.mem_reverse] at h1
  exact (List.dropWhile_sublist isJsWhitespaceChar).mem h1

theorem slash_not_mem_sanitize (s : String) :
    '/' ∉ (sanitizeForFilename s).data := by
  unfold sanitizeForFilename
  split
  · decide
  · intro hmem
    have h1 := mem_jsTrim_subset _ _ hmem
    unfold replaceIllegalChars at h1
    simp only [List.mem_map] at h1
    rcases h1 with ⟨c, _, hc⟩
    by_cases hb : isFileIllegalChar c = true
    · rw [if_pos hb] at hc
      exact absurd hc (by decide)
    · rw [if_neg hb] at hc
      subst hc
      simp [isFileIllegalChar] at hb

/-- The final path segment `baseName ++ ".pdf"` never contains a slash. -/
theorem slash_not_mem_baseName (rawAwb : String) (count : Nat) :
    '/' ∉ (baseNameFor rawAwb count ++ ".pdf").data := by
  intro hmem
  rw [String.data_append] at hmem
  rcases List.mem_append.1 hmem with h | h
  · unfold baseNameFor at h
    split at h
    · exact slash_not_mem_sanitize rawAwb h
    · rw [String.data_append, String.data_append] at h
      rcases List.mem_append.1 h with h1 | h1
      · rcases List.mem_append.1 h1 with h2 | h2
        · exact slash_not_mem_sanitize rawAwb h2
        · simp at h2
      · exact slash_not_mem_natToString count h1
  · simp at h

/-- Splitting a path at the final separator: when neither tail contains a
slash, equal paths have equal directories and equal final segments. -/
theorem append_slash_inj : ∀ (as bs xs ys : List Char), '/' ∉ xs → '/' ∉ ys →
    as ++ '/' :: xs = bs ++ '/' :: ys → as = bs ∧ xs = ys := by
  intro as
  induction as with
  | nil =>
    intro bs xs ys hx hy h
    match bs with
    | [] =>
      simp only [List.nil_append] at h
      exact ⟨rfl, (List.cons.injEq _ _ _ _ ▸ h).2⟩
    | b :: bs' =>
      simp only [List.nil_append, List.cons_append] at h
      rcases List.cons.injEq _ _ _ _ ▸ h with ⟨rfl, h2⟩
      exact absurd (h2 ▸ List.mem_append_right bs' (List.mem_cons_self '/' ys)) hx
  | cons a as' ih =>
    intro bs xs ys hx hy h
    match bs with
    | [] =>
      simp only [List.nil_append, List.cons_append] at h
      rcases List.cons.injEq _ _ _ _ ▸ h with ⟨rfl, h2⟩
      exact absurd (h2.symm ▸ List.mem_append_right as' (List.mem_cons_self '/' xs)) hy
    | b :: bs' =>
      simp only [List.cons_append] at h
      rcases List.cons.injEq _ _ _ _ ▸ h with ⟨rfl, h2⟩
      rcases ih bs' xs ys hx hy h2 with ⟨rfl, rfl⟩
      exact ⟨rfl, rfl⟩

/-- `joinPath` is injective when the appended segments are slash-free. -/
theorem joinPath_inj {a b x y : String} (hx : '/' ∉ x.data) (hy : '/' ∉ y.data)
    (h : joinPath a x = joinPath b y) : a = b ∧ x = y := by
  unfold joinPath at h
  have hd : a.data ++ '/' :: x.data = b.data ++ '/' :: y.data := by
    have := congrArg String.data h
    simpa [String.data_append] using this
  rcases append_slash_inj a.data b.data x.data y.data hx hy hd with ⟨h1, h2⟩
  exact ⟨string_data_inj h1, string_data_inj h2⟩

/-- Distinct occurrence numbers produce distinct filename bases. -/
theorem baseNameFor_inj (rawAwb : String) (c1 c2 : Nat)
    (hne : c1 ≠ c2) : baseNameFor rawAwb c1 ≠ baseNameFor rawAwb c2 := by
  intro heq
  unfold baseNameFor at heq
  by_cases e1 : c1 = 1 <;> by_cases e2 : c2 = 1
  · exact hne (e1.trans e2.symm)
  · rw [if_pos e1, if_neg e2] at heq
    have hlen := congrArg String.length heq
    rw [String.length_append, String.length_append] at hlen
    have := natToString_length_pos c2
    have : ("_" : String).length = 1 := rfl
    omega
  · rw [if_neg e1, if_pos e2] at heq
    have hlen := congrArg String.length heq
    rw [String.length_append, String.length_append] at hlen
    have := natToString_length_pos c1
    have : ("_" : String).length = 1 := rfl
    omega
  · rw [if_neg e1, if_neg e2] at heq
    rw [String.append_assoc, String.append_assoc] at heq
    have h2 := string_append_cancel_left heq
    have h3 := string_append_cancel_left h2
    exact hne (natToString_injective h3)

/-! ## Partition counting -/

theorem countP_range_div (p : Nat) : ∀ n : Nat,
    (List.range n).countP (fun i => i / MAX_PER_ZIP == p) =
      min n (MAX_PER_ZIP * (p + 1)) - MAX_PER_ZIP * p := by
  simp only [MAX_PER_ZIP]
  intro n
  induction n with
  | zero => simp
  | succ n ih =>
    rw [List.range_succ, List.countP_append, ih]
    have hsingle : List.countP (fun i => i / 3000 == p) [n] =
        if n / 3000 = p then 1 else 0 := by
      by_cases h : n / 3000 = p
      · have hb : (n / 3000 == p) = true := by simpa using h
        simp [List.countP_cons, hb, h]
      · have hb : (n / 3000 == p) = false := by simpa using h
        simp [List.countP_cons, hb, h]
    rw [hsingle]
    by_cases h : n / 3000 = p
    · rw [if_pos h]
      omega
    · rw [if_neg h]
      omega

/-- The ordinal indices of the produced tasks are exactly
`index, index+1, ...` in order. -/
theorem mkTasksAux_map_index (workDir : String) (awbCount : String → Nat)
    (index : Nat) (rows : List Row) :
    (mkTasksAux workDir awbCount index rows).map (fun t => t.index) =
      List.range' index rows.length := by
  induction rows generalizing awbCount index with
  | nil => rfl
  | cons r rest ih =>
    rw [mkTasksAux]
    simp only [List.map_cons, List.length_cons, List.range'_succ]
    rw [ih]

theorem mkTasks_map_index (workDir : String) (rows : List Row) :
    (mkTasks workDir rows).map (fun t => t.index) = List.range rows.length := by
  rw [mkTasks, mkTasksAux_map_index, List.range_eq_range']

/-! ## Civil-date component bounds -/

theorem civilFromDays_bounds (z0 : Int) :
    1 ≤ (civilFromDays z0).2.2 ∧ (civilFromDays z0).2.2 ≤ 31 ∧
    1 ≤ (civilFromDays z0).2.1 ∧ (civilFromDays z0).2.1 ≤ 12 := by
  unfold civilFromDays
  simp only []
  split <;> omega

theorem ratFloor_ofInt (i : Int) : ratFloor ((i : Rat)) = i := by
  unfold ratFloor
  rw [Rat.num_intCast, Rat.den_intCast]
  simp

/-! ## Chunking lemmas -/

theorem chunksOf_flatten {α : Type} (k : Nat) (hk : 1 ≤ k) :
    ∀ l : List α, (chunksOf k l).flatten = l := by
  obtain ⟨j, rfl⟩ : ∃ j, k = j + 1 := ⟨k - 1, by omega⟩
  suffices h : ∀ (n : Nat) (l : List α), l.length ≤ n → (chunksOf (j+1) l).flatten = l from
    fun l => h l.length l le_rfl
  intro n
  induction n with
  | zero =>
    intro l hl
    have hnil : l = [] := List.length_eq_zero.1 (by omega)
    subst hnil
    simp [chunksOf]
  | succ n ih =>
    intro l hl
    match l with
    | [] => simp [chunksOf]
    | a :: rest =>
      rw [chunksOf]
      simp only [List.flatten_cons, Nat.add_sub_cancel]
      rw [ih (rest.drop j) (by simp [List.length_drop]; simp at hl; omega)]
      rw [← List.drop_succ_cons, List.take_append_drop]

theorem ceilDiv_succ_len (k n : Nat) (hk : 1 ≤ k) :
    (n + 1 + k - 1) / k = ((n - (k - 1)) + k - 1) / k + 1 := by
  have e1 : n + 1 + k - 1 = n + k := by omega
  rw [e1, Nat.add_div_right _ (by omega)]
  by_cases h : k - 1 ≤ n
  · have e2 : n - (k - 1) + k - 1 = n := by omega
    rw [e2]
  · have e2 : n - (k - 1) + k - 1 = k - 1 := by omega
    rw [e2, Nat.div_eq_of_lt (by omega), Nat.div_eq_of_lt (by omega)]

theorem chunksOf_length {α : Type} (k : Nat) (hk : 1 ≤ k) :
    ∀ l : List α, (chunksOf k l).length = (l.length + k - 1) / k := by
  suffices h : ∀ (n : Nat) (l : List α), l.length ≤ n →
      (chunksOf k l).length = (l.length + k - 1) / k from
    fun l => h l.length l le_rfl
  intro n
  induction n with
  | zero =>
    intro l hl
    have hnil : l = [] := List.length_eq_zero.1 (by omega)
    subst hnil
    simp [chunksOf]
    symm
    exact Nat.div_eq_of_lt (by omega)
  | succ n ih =>
    intro l hl
    match l with
    | [] =>
      simp [chunksOf]
      symm
      exact Nat.div_eq_of_lt (by omega)
    | a :: rest =>
      rw [chunksOf]
      simp only [List.length_cons]
      rw [ih (rest.drop (k - 1)) (by simp [List.length_drop]; simp at hl; omega)]
      rw [List.length_drop, ceilDiv_succ_len k rest.length hk]

/-! ## Orchestrator characterization -/

theorem runBatches_eq (pdfOutcome : PdfOracle) (concurrency browserInstance : Nat)
    (hc : 1 ≤ concurrency) (chunkTasks : List PodTask) :
    runBatches pdfOutcome concurrency browserInstance chunkTasks =
      chunkTasks.map (fun t => processWithRetry pdfOutcome t browserInstance) := by
  unfold runBatches
  rw [← List.map_flatten, chunksOf_flatten concurrency hc]

theorem runChunks_getElem? (pdfOutcome : PdfOracle) (restartEvery concurrency : Nat)
    (hr : 1 ≤ restartEvery) (hc : 1 ≤ concurrency) :
    ∀ (l : List PodTask) (chunkIndex i : Nat),
    (runChunks pdfOutcome restartEvery concurrency chunkIndex l)[i]? =
      l[i]?.map (fun t =>
        processWithRetry pdfOutcome t (chunkIndex + i / restartEvery)) := by
  suffices h : ∀ (n : Nat) (l : List PodTask) (chunkIndex i : Nat), l.length ≤ n →
      (runChunks pdfOutcome restartEvery concurrency chunkIndex l)[i]? =
        l[i]?.map (fun t =>
          processWithRetry pdfOutcome t (chunkIndex + i / restartEvery)) from
    fun l ci i => h l.length l ci i le_rfl
  intro n
  induction n with
  | zero =>
    intro l ci i hl
    have hnil : l = [] := List.length_eq_zero.1 (by omega)
    subst hnil
    simp [runChunks]
  | succ n ih =>
    intro l ci i hl
    match l with
    | [] => simp [runChunks]
    | t :: rest =>
      rw [runChunks, runBatches_eq pdfOutcome concurrency ci hc]
      rw [List.getElem?_append]
      simp only [List.length_map, List.length_take, List.length_cons]
      by_cases hi : i < min restartEvery (rest.length + 1)
      · rw [if_pos hi, List.getElem?_map, List.getElem?_take, if_pos (by omega)]
        have hdiv : i / restartEvery = 0 := Nat.div_eq_of_lt (by omega)
        rw [hdiv, Nat.add_zero]
      · rw [if_neg hi]
        rw [ih (rest.drop (restartEvery - 1)) (ci + 1)
          (i - min restartEvery (rest.length + 1))
          (by simp [List.length_drop]; simp at hl; omega)]
        by_cases hlen : rest.length + 1 ≤ restartEvery
        · have h1 : min restartEvery (rest.length + 1) = rest.length + 1 := by omega
          rw [h1]
          have h2 : (rest.drop (restartEvery - 1)).length = 0 := by
            simp [List.length_drop]
            omega
          rw [List.getElem?_eq_none (by omega), List.getElem?_eq_none (by simp; omega)]
          rfl
        · have h1 : min restartEvery (rest.length + 1) = restartEvery := by omega
          rw [h1]
          have hdrop : rest.drop (restartEvery - 1) = (t :: rest).drop restartEvery := by
            obtain ⟨j, rfl⟩ : ∃ j, restartEvery = j + 1 := ⟨restartEvery - 1, by omega⟩
            simp [List.drop_succ_cons]
          rw [hdrop, List.getElem?_drop]
          have hidx : restartEvery + (i - restartEvery) = i := by omega
          rw [hidx]
          have hdiv : ci + 1 + (i - restartEvery) / restartEvery =
              ci + i / restartEvery := by
            have h2 : (i - restartEvery) + restartEvery = i := by omega
            have h3 := Nat.add_div_right (i - restartEvery) (show 0 < restartEvery by omega)
            rw [h2] at h3
            omega
          rw [hdiv]

theorem runChunks_length (pdfOutcome : PdfOracle) (restartEvery concurrency : Nat)
    (hr : 1 ≤ restartEvery) (hc : 1 ≤ concurrency) :
    ∀ (l : List PodTask) (chunkIndex : Nat),
    (runChunks pdfOutcome restartEvery concurrency chunkIndex l).length = l.length := by
  suffices h : ∀ (n : Nat) (l : List PodTask) (chunkIndex : Nat), l.length ≤ n →
      (runChunks pdfOutcome restartEvery concurrency chunkIndex l).length = l.length from
    fun l ci => h l.length l ci le_rfl
  intro n
  induction n with
  | zero =>
    intro l ci hl
    have hnil : l = [] := List.length_eq_zero.1 (by omega)
    subst hnil
    simp [runChunks]
  | succ n ih =>
    intro l ci hl
    match l with
    | [] => simp [runChunks]
    | t :: rest =>
      rw [runChunks, runBatches_eq pdfOutcome concurrency ci hc]
      simp only [List.length_append, List.length_map, List.length_take, List.length_cons]
      rw [ih (rest.drop (restartEvery - 1)) (ci + 1)
        (by simp [List.length_drop]; simp at hl; omega)]
      simp only [List.length_drop, List.length_cons]
      omega

theorem runPipeline_getElem? (pdfOutcome : PdfOracle) (restartEvery concurrency : Nat)
    (hr : 1 ≤ restartEvery) (hc : 1 ≤ concurrency) (tasks : List PodTask) (i : Nat) :
    (runPipeline pdfOutcome restartEvery concurrency tasks)[i]? =
      tasks[i]?.map (fun t => processWithRetry pdfOutcome t (i / restartEvery)) := by
  have h := runChunks_getElem? pdfOutcome restartEvery concurrency hr hc tasks 0 i
  simpa [runPipeline] using h

theorem runPipeline_length (pdfOutcome : PdfOracle) (restartEvery concurrency : Nat)
    (hr : 1 ≤ restartEvery) (hc : 1 ≤ concurrency) (tasks : List PodTask) :
    (runPipeline pdfOutcome restartEvery concurrency tasks).length = tasks.length :=
  runChunks_length pdfOutcome restartEvery concurrency hr hc tasks 0

/-! ## Engine lifecycle lemmas -/

theorem filterMap_const_none {α β : Type} : ∀ l : List α,
    l.filterMap (fun _ => (none : Option β)) = [] := by
  intro l
  induction l with
  | nil => rfl
  | cons a l ih => simp [List.filterMap_cons, ih]

theorem mem_launchesOf (b : Nat) (trace : List EngineEvent) :
    EngineEvent.launch b ∈ trace ↔ b ∈ launchesOf trace := by
  unfold launchesOf
  rw [List.mem_filterMap]
  constructor
  · intro h
    exact ⟨EngineEvent.launch b, h, rfl⟩
  · rintro ⟨e, he, hfe⟩
    cases e with
    | launch b' =>
      simp only [Option.some.injEq] at hfe
      subst hfe
      exact he
    | convert b' => simp at hfe
    | close b' => simp at hfe

theorem launchesOf_engineTraceGo (r : Nat) (hr : 1 ≤ r) :
    ∀ (l : List PodTask) (chunkIndex : Nat),
    launchesOf (engineTraceGo r chunkIndex l) =
      List.range' chunkIndex ((l.length + r - 1) / r) := by
  suffices h : ∀ (n : Nat) (l : List PodTask) (chunkIndex : Nat), l.length ≤ n →
      launchesOf (engineTraceGo r chunkIndex l) =
        List.range' chunkIndex ((l.length + r - 1) / r) from
    fun l ci => h l.length l ci le_rfl
  intro n
  induction n with
  | zero =>
    intro l ci hl
    have hnil : l = [] := List.length_eq_zero.1 (by omega)
    subst hnil
    simp [engineTraceGo, launchesOf]
    exact Nat.div_eq_of_lt (by omega)
  | succ n ih =>
    intro l ci hl
    match l with
    | [] =>
      simp [engineTraceGo, launchesOf]
      exact Nat.div_eq_of_lt (by omega)
    | t :: rest =>
      rw [engineTraceGo]
      have hrec := ih (rest.drop (r - 1)) (ci + 1)
        (by simp [List.length_drop]; simp at hl; omega)
      unfold launchesOf at hrec ⊢
      simp only [List.cons_append, List.filterMap_cons, List.filterMap_append,
        List.filterMap_map, List.filterMap_nil]
      rw [show ((fun e => match e with
            | EngineEvent.launch b => some b
            | _ => none) ∘ (fun _ => EngineEvent.convert ci)) =
          (fun _ => (none : Option Nat)) from rfl]
      rw [filterMap_const_none, hrec, List.length_drop]
      rw [List.length_cons, ceilDiv_succ_len r rest.length hr, List.range'_succ]
      rfl

/-- Every launch that is not the very first is immediately preceded by the
close of the previous instance. -/
theorem engineTraceGo_close_launch (r : Nat) (hr : 1 ≤ r) :
    ∀ (l : List PodTask) (chunkIndex k : Nat),
    EngineEvent.launch (k+1) ∈ engineTraceGo r chunkIndex l →
      chunkIndex ≤ k + 1 ∧ (chunkIndex < k + 1 → ∃ pre post,
        engineTraceGo r chunkIndex l =
          pre ++ EngineEvent.close k :: EngineEvent.launch (k+1) :: post) := by
  suffices h : ∀ (n : Nat) (l : List PodTask) (chunkIndex k : Nat), l.length ≤ n →
      EngineEvent.launch (k+1) ∈ engineTraceGo r chunkIndex l →
        chunkIndex ≤ k + 1 ∧ (chunkIndex < k + 1 → ∃ pre post,
          engineTraceGo r chunkIndex l =
            pre ++ EngineEvent.close k :: EngineEvent.launch (k+1) :: post) from
    fun l ci k => h l.length l ci k le_rfl
  intro n
  induction n with
  | zero =>
    intro l ci k hl hmem
    have hnil : l = [] := List.length_eq_zero.1 (by omega)
    subst hnil
    simp [engineTraceGo] at hmem
  | succ n ih =>
    intro l ci k hl hmem
    match l with
    | [] => simp [engineTraceGo] at hmem
    | t :: rest =>
      rw [engineTraceGo] at hmem
      simp only [List.cons_append, List.mem_cons, List.mem_append,
        List.mem_map, List.mem_singleton] at hmem
      have hmem' : k + 1 = ci ∨
          EngineEvent.launch (k+1) ∈ engineTraceGo r (ci + 1) (rest.drop (r - 1)) := by
        rcases hmem with h1 | h1
        · left
          simpa using h1
        · rcases h1 with h2 | h2
          · exfalso
            rcases h2 with ⟨a, ha⟩ | h3
            · simp at ha
            · simp at h3
          · right
            exact h2
      rcases hmem' with hback | hrec
      · exact ⟨by omega, by omega⟩
      · have ihh := ih (rest.drop (r - 1)) (ci + 1) k
          (by simp [List.length_drop]; simp at hl; omega) hrec
        refine ⟨by omega, ?_⟩
        intro hlt
        by_cases hci : ci + 1 = k + 1
        · have hk : k = ci := by omega
          rw [hk]
          have hne : rest.drop (r - 1) ≠ [] := by
            intro hnil
            rw [hnil] at hrec
            simp [engineTraceGo] at hrec
          obtain ⟨x, xs, hxs⟩ := List.exists_cons_of_ne_nil hne
          refine ⟨EngineEvent.launch ci ::
            ((t :: rest).take r).map (fun _ => EngineEvent.convert ci),
            ((x :: xs).take r).map (fun _ => EngineEvent.convert (ci + 1)) ++
              [EngineEvent.close (ci + 1)] ++
              engineTraceGo r (ci + 1 + 1) (xs.drop (r - 1)), ?_⟩
          conv_lhs => rw [engineTraceGo, hxs, engineTraceGo]
          simp [List.cons_append, List.append_assoc, hk]
        · obtain ⟨pre, post, heq⟩ := ihh.2 (by omega)
          refine ⟨EngineEvent.launch ci ::
            (((t :: rest).take r).map (fun _ => EngineEvent.convert ci) ++
              [EngineEvent.close ci]) ++ pre, post, ?_⟩
          conv_lhs => rw [engineTraceGo, heq]
          simp [List.cons_append, List.append_assoc]

/-! ## Date-formatter helper lemmas -/

/-- Every `formatDate` output is either empty or the rendering of some
valid epoch-millisecond value. -/
theorem formatDate_cases (parse : String → Option Int) (v : JsValue) :
    formatDate parse v = "" ∨
      ∃ ms : Int, formatDate parse v = formatDateFromMs ms := by
  unfold formatDate
  by_cases hf : jsFalsy v
  · rw [if_pos hf]
    left
    rfl
  · rw [if_neg hf]
    cases hd : dateFromValue parse v with
    | none => left; rfl
    | some ms => right; exact ⟨ms, rfl⟩

theorem formatDateFromMs_ne_invalid (ms : Int) :
    formatDateFromMs ms ≠ "Invalid Date" := by
  intro h
  have hmem : '-' ∈ (formatDateFromMs ms).data := by
    unfold formatDateFromMs
    simp [String.data_append]
  rw [h] at hmem
  exact absurd hmem (by decide)

theorem intToString_pos (i : Int) (h1 : 1 ≤ i) :
    intToString i = natToString i.toNat := by
  unfold intToString
  rw [if_neg (by omega)]

theorem padStart2_natToString_small : ∀ m : Nat, m < 32 → 1 ≤ m →
    (padStart2 (natToString m)).length = 2 ∧
    (padStart2 (natToString m)).data.all Char.isDigit = true := by
  decide

/-- Any list splits its length into the matches and the non-matches of a
Boolean predicate. -/
theorem countP_add_countP_not {α : Type} (p : α → Bool) :
    ∀ l : List α, l.countP p + l.countP (fun a => !p a) = l.length := by
  intro l
  induction l with
  | nil => rfl
  | cons a l ih =>
    rw [List.countP_cons, List.countP_cons, List.length_cons, ← ih]
    by_cases h : p a
    · simp [h]
      omega
    · have hb : p a = false := by simpa using h
      simp [hb]
      omega

/-! ## Occurrence-count monotonicity and per-partition counts -/

theorem countP_take_lt (rows : List Row) (i j : Nat) (hij : i < j) (rowi : Row)
    (hrow : rows[i]? = some rowi) (R : String)
    (hR : (jsStringOfAwb rowi == R) = true) :
    (rows.take i).countP (fun r => jsStringOfAwb r == R) <
      (rows.take j).countP (fun r => jsStringOfAwb r == R) := by
  have hsucc : (rows.take (i+1)).countP (fun r => jsStringOfAwb r == R) =
      (rows.take i).countP (fun r => jsStringOfAwb r == R) + 1 := by
    rw [List.take_succ, hrow]
    simp [List.countP_append, List.countP_cons, hR]
  have hsplit : rows.take j = rows.take (i+1) ++ (rows.drop (i+1)).take (j - (i+1)) := by
    rw [← List.take_add]
    congr 1
    omega
  rw [hsplit, List.countP_append, hsucc]
  omega

theorem mkTasks_countP_partition (workDir : String) (rows : List Row) (p : Nat) :
    (mkTasks workDir rows).countP (fun t => t.index / MAX_PER_ZIP == p) =
      min rows.length (MAX_PER_ZIP * (p + 1)) - MAX_PER_ZIP * p := by
  have hmap := List.countP_map (fun i => i / MAX_PER_ZIP == p)
    (fun t : PodTask => t.index) (mkTasks workDir rows)
  rw [mkTasks_map_index, countP_range_div] at hmap
  exact hmap.symm

/-- Same raw AWB at two positions in order: the earlier task's filename
differs from the later one's. -/
theorem mkTasks_filename_ne_of_lt (workDir : String) (rows : List Row)
    (i j : Nat) (ti tj : PodTask) (hlt : i < j)
    (hi : (mkTasks workDir rows)[i]? = some ti)
    (hj : (mkTasks workDir rows)[j]? = some tj)
    (hraw : ti.rawAwb = tj.rawAwb) : ti.filename ≠ tj.filename := by
  rw [mkTasks_getElem?] at hi hj
  rcases Option.map_eq_some'.1 hi with ⟨rowi, hri, hfi⟩
  rcases Option.map_eq_some'.1 hj with ⟨rowj, hrj, hfj⟩
  subst hfi
  subst hfj
  simp only [taskFor] at hraw ⊢
  intro heq
  rcases joinPath_inj (slash_not_mem_baseName _ _) (slash_not_mem_baseName _ _) heq
    with ⟨_, hseg⟩
  have hbase := string_append_cancel_right hseg
  rw [← hraw] at hbase
  have hcnt := countP_take_lt rows i j hlt rowi hri (jsStringOfAwb rowi) (by simp)
  exact baseNameFor_inj (jsStringOfAwb rowi) _ _ (by omega) hbase

/-! ## Claim theorems -/

/-- C4: the date formatter maps the spreadsheet serial 44927 to
"01-01-2023"; an unparseable string such as "N/A" and null/absent input map
to the empty string; no input ever yields "Invalid Date" (and the Lean
function is total, so no input throws); and every input that reaches the
formatting step yields a string of shape DD-MM-YYYY whose day and month
fields are exactly two zero-padded decimal digits. -/
theorem C4_formatDate_spec (parse : String → Option Int) :
    formatDate parse (JsValue.num 44927) = "01-01-2023" ∧
    (parse "N/A" = none → formatDate parse (JsValue.str "N/A") = "") ∧
    formatDate parse JsValue.nullish = "" ∧
    (∀ v : JsValue, formatDate parse v ≠ "Invalid Date") ∧
    (∀ v : JsValue, formatDate parse v = "" ∨ ∃ day month year : Int,
      formatDate parse v =
        padStart2 (intToString day) ++ "-" ++ padStart2 (intToString month) ++ "-" ++
          intToString year ∧
      1 ≤ day ∧ day ≤ 31 ∧ 1 ≤ month ∧ month ≤ 12 ∧
      (padStart2 (intToString day)).length = 2 ∧
      (padStart2 (intToString month)).length = 2 ∧
      (padStart2 (intToString day)).data.all Char.isDigit = true ∧
      (padStart2 (intToString month)).data.all Char.isDigit = true) := by
  refine ⟨?_, ?_, rfl, ?_, ?_⟩
  · simp only [formatDate, dateFromValue]
    rw [show ((44927 : Rat) - 25569) = ((19358 : Int) : Rat) by norm_num, ratFloor_ofInt]
    decide
  · intro hp
    simp [formatDate, dateFromValue, jsFalsy, hp]
  · intro v
    rcases formatDate_cases parse v with h | ⟨ms, h⟩
    · rw [h]
      decide
    · rw [h]
      exact formatDateFromMs_ne_invalid ms
  · intro v
    rcases formatDate_cases parse v with h | ⟨ms, h⟩
    · left
      exact h
    · right
      refine ⟨dateGetDate ms, dateGetMonth ms + 1, dateGetFullYear ms, h, ?_⟩
      have hb := civilFromDays_bounds (dayFromMs ms)
      have hday : 1 ≤ dateGetDate ms ∧ dateGetDate ms ≤ 31 := by
        unfold dateGetDate
        exact ⟨hb.1, hb.2.1⟩
      have hmon : 1 ≤ dateGetMonth ms + 1 ∧ dateGetMonth ms + 1 ≤ 12 := by
        unfold dateGetMonth
        omega
      have hd2 := padStart2_natToString_small (dateGetDate ms).toNat
        (by omega) (by omega)
      have hm2 := padStart2_natToString_small (dateGetMonth ms + 1).toNat
        (by omega) (by omega)
      rw [intToString_pos _ (by omega), intToString_pos _ (by omega)]
      exact ⟨hday.1, hday.2, hmon.1, hmon.2, hd2.1, hm2.1, hd2.2, hm2.2⟩

/-- C4 witness: instantiated at the host parser that rejects every string,
the hypothesis `parse "N/A" = none` holds and the formatter maps "N/A" to
the empty string. -/
theorem C4_formatDate_spec_witness :
    ((fun _ : String => (none : Option Int)) "N/A" = none) ∧
    formatDate (fun _ => none) (JsValue.str "N/A") = "" :=
  ⟨rfl, (C4_formatDate_spec (fun _ => none)).2.1 rfl⟩

/-- C10: `formatDate` returns the empty string on the numeric input 0 (and
on the other falsy inputs null and ""), although serial 0 is a
representable date: the numeric conversion branch applied to serial 0
would render 1899-12-30.  The zero serial is treated as absent. -/
theorem C10_zero_serial_empty (parse : String → Option Int) :
    formatDate parse (JsValue.num 0) = "" ∧
    formatDate parse JsValue.nullish = "" ∧
    formatDate parse (JsValue.str "") = "" ∧
    formatDateFromMs (ratFloor ((0 : Rat) - 25569) * 86400 * 1000) = "30-12-1899" := by
  refine ⟨rfl, rfl, rfl, ?_⟩
  rw [show ((0 : Rat) - 25569) = (((-25569 : Int)) : Rat) by norm_num, ratFloor_ofInt]
  decide

/-- C1 counterexample: the rows with raw AWBs "a/b" and "a\b" are
distinct, yet both tasks are assigned the output path "wd/part1/a_b.pdf" —
two tasks share one output path, refuting the claimed invariant exactly in
the advertised case of distinct raws with equal sanitizations. -/
theorem C1_distinct_paths_counterexample :
    (mkTasks "wd" [{ awb := some "a/b", date := JsValue.nullish },
                   { awb := some "a\\b", date := JsValue.nullish }]).map
        (fun t => t.filename) =
      ["wd/part1/a_b.pdf", "wd/part1/a_b.pdf"] ∧
    (mkTasks "wd" [{ awb := some "a/b", date := JsValue.nullish },
                   { awb := some "a\\b", date := JsValue.nullish }]).map
        (fun t => t.rawAwb) =
      ["a/b", "a\\b"] ∧
    ("a/b" : String) ≠ "a\\b" := by
  refine ⟨by decide, by decide, by decide⟩

/-- C1 amended: tasks whose raw AWB identifiers are equal are never
assigned the same output file path (the occurrence counter disambiguates
them); for distinct raw identifiers that sanitize to the same string the
paths can collide, as the counterexample shows. -/
theorem C1_same_raw_unique_paths (workDir : String) (rows : List Row)
    (i j : Nat) (ti tj : PodTask)
    (hi : (mkTasks workDir rows)[i]? = some ti)
    (hj : (mkTasks workDir rows)[j]? = some tj)
    (hij : i ≠ j) (hraw : ti.rawAwb = tj.rawAwb) :
    ti.filename ≠ tj.filename := by
  rcases Nat.lt_or_ge i j with h | h
  · exact mkTasks_filename_ne_of_lt workDir rows i j ti tj h hi hj hraw
  · have hlt : j < i := by omega
    exact (mkTasks_filename_ne_of_lt workDir rows j i tj ti hlt hj hi hraw.symm).symm

/-- C1 witness: two rows with the same raw AWB "x" produce the distinct
paths "wd/part1/x.pdf" and "wd/part1/x_2.pdf". -/
theorem C1_same_raw_unique_paths_witness :
    ((mkTasks "wd" [{ awb := some "x", date := JsValue.nullish },
                    { awb := some "x", date := JsValue.nullish }])[0]? =
      some { row := { awb := some "x", date := JsValue.nullish }, rawAwb := "x",
             filename := "wd/part1/x.pdf", folder := "wd/part1", index := 0 } ∧
     (mkTasks "wd" [{ awb := some "x", date := JsValue.nullish },
                    { awb := some "x", date := JsValue.nullish }])[1]? =
      some { row := { awb := some "x", date := JsValue.nullish }, rawAwb := "x",
             filename := "wd/part1/x_2.pdf", folder := "wd/part1", index := 1 } ∧
     (0 : Nat) ≠ 1) ∧
    ("wd/part1/x.pdf" : String) ≠ "wd/part1/x_2.pdf" :=
  ⟨⟨by decide, by decide, by decide⟩,
    C1_same_raw_unique_paths "wd"
      [{ awb := some "x", date := JsValue.nullish },
       { awb := some "x", date := JsValue.nullish }] 0 1
      { row := { awb := some "x", date := JsValue.nullish }, rawAwb := "x",
        filename := "wd/part1/x.pdf", folder := "wd/part1", index := 0 }
      { row := { awb := some "x", date := JsValue.nullish }, rawAwb := "x",
        filename := "wd/part1/x_2.pdf", folder := "wd/part1", index := 1 }
      (by decide) (by decide) (by decide) rfl⟩

/-- C2: the task at position `i` carries the row's raw (untrimmed,
stringified) AWB; its occurrence number is one more than the number of
earlier retained rows with the same raw AWB, so the first occurrence gets
the bare sanitized base name and the k-th occurrence the `_k` suffix; and
it sits in the folder `part(floor(i / MAX_PER_ZIP) + 1)` determined by its
own ordinal index. -/
theorem C2_occurrence_suffix_and_partition (workDir : String) (rows : List Row)
    (i : Nat) :
    (mkTasks workDir rows)[i]? =
      rows[i]?.map (fun row =>
        { row := row
          rawAwb := jsStringOfAwb row
          filename := joinPath (folderFor workDir i)
            (baseNameFor (jsStringOfAwb row)
              ((rows.take i).countP
                (fun r => jsStringOfAwb r == jsStringOfAwb row) + 1) ++ ".pdf")
          folder := folderFor workDir i
          index := i }) := by
  rw [mkTasks_getElem?]
  rfl

/-- C3 counterexample: on 7001 valid rows the third partition (partition
index 2) holds 1001 tasks, not 1 as claimed: 7001 = 3000 + 3000 + 1001. -/
theorem C3_partition_sizes_counterexample :
    (mkTasks "wd" (List.replicate 7001
        { awb := some "x", date := JsValue.nullish })).countP
      (fun t => t.index / MAX_PER_ZIP == 2) = 1001 ∧ (1001 : Nat) ≠ 1 := by
  constructor
  · rw [mkTasks_countP_partition, List.length_replicate]
    simp only [MAX_PER_ZIP]
    omega
  · decide

/-- C3 amended: the partition of the task with ordinal index `i` is
`floor(i / MAX_PER_ZIP)` with `MAX_PER_ZIP = 3000` (the folder is named
`part(floor(i/MAX_PER_ZIP)+1)`); no partition ever holds more than 3000
tasks; and 7001 valid rows produce exactly three partitions, of sizes
3000, 3000 and 1001 (not 1). -/
theorem C3_partition_of_index (workDir : String) (rows : List Row) :
    MAX_PER_ZIP = 3000 ∧
    (∀ t ∈ mkTasks workDir rows,
      t.folder = joinPath workDir ("part" ++ natToString (t.index / MAX_PER_ZIP + 1))) ∧
    (∀ p : Nat, (mkTasks workDir rows).countP
      (fun t => t.index / MAX_PER_ZIP == p) ≤ MAX_PER_ZIP) ∧
    (rows.length = 7001 →
      (mkTasks workDir rows).countP (fun t => t.index / MAX_PER_ZIP == 0) = 3000 ∧
      (mkTasks workDir rows).countP (fun t => t.index / MAX_PER_ZIP == 1) = 3000 ∧
      (mkTasks workDir rows).countP (fun t => t.index / MAX_PER_ZIP == 2) = 1001 ∧
      ∀ t ∈ mkTasks workDir rows, t.index / MAX_PER_ZIP < 3) := by
  have hfold : ∀ t ∈ mkTasks workDir rows,
      t.folder = joinPath workDir ("part" ++ natToString (t.index / MAX_PER_ZIP + 1)) ∧
      t.index < rows.length := by
    intro t ht
    rcases List.getElem?_of_mem ht with ⟨i, hgi⟩
    rw [mkTasks_getElem?] at hgi
    rcases Option.map_eq_some'.1 hgi with ⟨row, hrow, hback⟩
    subst hback
    refine ⟨rfl, ?_⟩
    show i < rows.length
    by_cases hlt : i < rows.length
    · exact hlt
    · rw [List.getElem?_eq_none (by omega)] at hrow
      cases hrow
  refine ⟨rfl, fun t ht => (hfold t ht).1, ?_, ?_⟩
  · intro p
    rw [mkTasks_countP_partition]
    simp only [MAX_PER_ZIP]
    omega
  · intro hlen
    refine ⟨?_, ?_, ?_, ?_⟩
    · rw [mkTasks_countP_partition, hlen]
      simp only [MAX_PER_ZIP]
      omega
    · rw [mkTasks_countP_partition, hlen]
      simp only [MAX_PER_ZIP]
      omega
    · rw [mkTasks_countP_partition, hlen]
      simp only [MAX_PER_ZIP]
      omega
    · intro t ht
      have := (hfold t ht).2
      rw [hlen] at this
      simp only [MAX_PER_ZIP]
      omega

/-- C3 witness: the 7001-row hypothesis discharged on a concrete list of
7001 rows. -/
theorem C3_partition_of_index_witness :
    (List.replicate 7001 ({ awb := some "x", date := JsValue.nullish } : Row)).length
      = 7001 ∧
    ((mkTasks "wd" (List.replicate 7001
        ({ awb := some "x", date := JsValue.nullish } : Row))).countP
      (fun t => t.index / MAX_PER_ZIP == 0) = 3000 ∧
     (mkTasks "wd" (List.replicate 7001
        ({ awb := some "x", date := JsValue.nullish } : Row))).countP
      (fun t => t.index / MAX_PER_ZIP == 1) = 3000 ∧
     (mkTasks "wd" (List.replicate 7001
        ({ awb := some "x", date := JsValue.nullish } : Row))).countP
      (fun t => t.index / MAX_PER_ZIP == 2) = 1001 ∧
     ∀ t ∈ mkTasks "wd" (List.replicate 7001
        ({ awb := some "x", date := JsValue.nullish } : Row)),
       t.index / MAX_PER_ZIP < 3) :=
  ⟨by rw [List.length_replicate],
    (C3_partition_of_index "wd" (List.replicate 7001
      { awb := some "x", date := JsValue.nullish })).2.2.2
      (by rw [List.length_replicate])⟩

/-- C5: after the full pipeline runs (for any conversion outcomes, any
environment configuration and any task list), the number of successful
results plus the number of failed results equals the number of submitted
tasks: exactly one result is recorded per task. -/
theorem C5_success_plus_failure_eq_total (pdfOutcome : PdfOracle)
    (envConc envRestart : Option Int) (isRailwayEnv : Bool)
    (tasks : List PodTask) :
    (runPipeline pdfOutcome (BROWSER_RESTART_EVERY envRestart)
        (CONCURRENT_PDFS envConc isRailwayEnv) tasks).countP (fun r => r.success) +
      (runPipeline pdfOutcome (BROWSER_RESTART_EVERY envRestart)
        (CONCURRENT_PDFS envConc isRailwayEnv) tasks).countP (fun r => !r.success) =
      tasks.length := by
  rw [countP_add_countP_not]
  exact runPipeline_length pdfOutcome _ _
    (by have := le_BROWSER_RESTART_EVERY envRestart; omega)
    (one_le_CONCURRENT_PDFS envConc isRailwayEnv) tasks

/-- C6: the retry procedure performs at most `MAX_PDF_RETRIES = 2`
rendering attempts, every attempt is made against the same browser
instance it was given, a task whose attempts all fail yields a failed
result, and in the pipeline each task index produces exactly the one
result of its own retry run. -/
theorem C6_retry_at_most_twice (pdfOutcome : PdfOracle) (task : PodTask)
    (browserInstance : Nat) :
    (retryTrace pdfOutcome task browserInstance).length ≤ MAX_PDF_RETRIES ∧
    (∀ pr ∈ retryTrace pdfOutcome task browserInstance,
      pr.2 = browserInstance) ∧
    ((∀ attempt, 1 ≤ attempt → attempt ≤ MAX_PDF_RETRIES →
        (generateOnePdf pdfOutcome task browserInstance attempt).success = false) →
      (processWithRetry pdfOutcome task browserInstance).success = false) ∧
    (∀ (envConc envRestart : Option Int) (railway : Bool)
        (tasks : List PodTask) (i : Nat),
      (runPipeline pdfOutcome (BROWSER_RESTART_EVERY envRestart)
          (CONCURRENT_PDFS envConc railway) tasks)[i]? =
        tasks[i]?.map (fun t =>
          processWithRetry pdfOutcome t (i / BROWSER_RESTART_EVERY envRestart))) := by
  refine ⟨?_, ?_, ?_, ?_⟩
  · by_cases h1 : (generateOnePdf pdfOutcome task browserInstance 1).success <;>
      by_cases h2 : (generateOnePdf pdfOutcome task browserInstance 2).success <;>
      simp [retryTrace, retryTraceGo, MAX_PDF_RETRIES, h1, h2]
  · intro pr hpr
    by_cases h1 : (generateOnePdf pdfOutcome task browserInstance 1).success <;>
      by_cases h2 : (generateOnePdf pdfOutcome task browserInstance 2).success <;>
      simp [retryTrace, retryTraceGo, MAX_PDF_RETRIES, h1, h2] at hpr <;>
      rcases hpr with rfl | rfl <;> rfl
  · intro hfail
    have hf1 := hfail 1 (by omega) (by decide)
    have hf2 := hfail 2 (by omega) (by decide)
    simp [processWithRetry, processWithRetryGo, MAX_PDF_RETRIES, hf1, hf2]
  · intro envConc envRestart railway tasks i
    exact runPipeline_getElem? pdfOutcome _ _
      (by have := le_BROWSER_RESTART_EVERY envRestart; omega)
      (one_le_CONCURRENT_PDFS envConc railway) tasks i

/-- C6 witness: under an oracle that fails every attempt, the task is
recorded as failed. -/
theorem C6_retry_at_most_twice_witness :
    (∀ attempt, 1 ≤ attempt → attempt ≤ MAX_PDF_RETRIES →
      (generateOnePdf (fun _ _ _ => some "boom")
        { row := { awb := some "x", date := JsValue.nullish }, rawAwb := "x",
          filename := "f", folder := "d", index := 0 } 0 attempt).success = false) ∧
    (processWithRetry (fun _ _ _ => some "boom")
      { row := { awb := some "x", date := JsValue.nullish }, rawAwb := "x",
        filename := "f", folder := "d", index := 0 } 0).success = false :=
  ⟨fun _ _ _ => rfl,
    (C6_retry_at_most_twice (fun _ _ _ => some "boom")
      { row := { awb := some "x", date := JsValue.nullish }, rawAwb := "x",
        filename := "f", folder := "d", index := 0 } 0).2.2.1 (fun _ _ _ => rfl)⟩

/-- C7: when no retained row remains after the AWB filter, the upload is
rejected with status-400 semantics and the fixed plain message, and no
filesystem effect — in particular no working-directory mutation and no
rendering — is performed. -/
theorem C7_empty_upload_rejected (pdfOutcome : PdfOracle)
    (envConc envRestart : Option Int) (isRailwayEnv : Bool) (cwd : String)
    (rows : List Row) (hempty : rowsWithAwb rows = []) :
    handleUpload pdfOutcome envConc envRestart isRailwayEnv cwd rows =
      (UploadOutcome.badRequest "No rows with AWB found in the Excel file.", []) := by
  unfold handleUpload
  rw [hempty]
  rfl

/-- C7 witness: an upload whose rows have only absent or whitespace-only
AWB fields is rejected with no effects. -/
theorem C7_empty_upload_rejected_witness :
    rowsWithAwb [{ awb := none, date := JsValue.nullish },
                 { awb := some "   ", date := JsValue.nullish }] = [] ∧
    handleUpload (fun _ _ _ => none) none none false "/srv"
        [{ awb := none, date := JsValue.nullish },
         { awb := some "   ", date := JsValue.nullish }] =
      (UploadOutcome.badRequest "No rows with AWB found in the Excel file.", []) :=
  ⟨by decide,
    C7_empty_upload_rejected (fun _ _ _ => none) none none false "/srv" _ (by decide)⟩

/-- C8: a run over `B` tasks acquires exactly
`ceil(B / restart_interval) = (B + r - 1) / r` engine instances, all
distinct (instances `0, 1, 2, ...` in launch order, one fresh instance per
chunk), and whenever instance `k+1` is launched, the close of instance `k`
immediately precedes it in the event trace — each instance is torn down
before the next chunk starts. -/
theorem C8_engine_instance_count (envRestart : Option Int)
    (tasks : List PodTask) :
    launchesOf (engineTrace (BROWSER_RESTART_EVERY envRestart) tasks) =
      List.range ((tasks.length + BROWSER_RESTART_EVERY envRestart - 1) /
        BROWSER_RESTART_EVERY envRestart) ∧
    (∀ k : Nat, EngineEvent.launch (k+1) ∈
        engineTrace (BROWSER_RESTART_EVERY envRestart) tasks →
      ∃ pre post, engineTrace (BROWSER_RESTART_EVERY envRestart) tasks =
        pre ++ EngineEvent.close k :: EngineEvent.launch (k+1) :: post) := by
  have hr : 1 ≤ BROWSER_RESTART_EVERY envRestart := by
    have := le_BROWSER_RESTART_EVERY envRestart
    omega
  constructor
  · rw [engineTrace, launchesOf_engineTraceGo _ hr, List.range_eq_range']
  · intro k hmem
    exact (engineTraceGo_close_launch _ hr tasks 0 k hmem).2 (by omega)

/-- C8 witness: with restart interval 500 and 501 tasks, two instances are
used and instance 0 is closed immediately before instance 1 launches. -/
theorem C8_engine_instance_count_witness :
    ∃ pre post, engineTrace (BROWSER_RESTART_EVERY (some 500))
        (List.replicate 501
          { row := { awb := some "x", date := JsValue.nullish }, rawAwb := "x",
            filename := "f", folder := "d", index := 0 }) =
      pre ++ EngineEvent.close 0 :: EngineEvent.launch 1 :: post := by
  have h := C8_engine_instance_count (some 500)
    (List.replicate 501
      { row := { awb := some "x", date := JsValue.nullish }, rawAwb := "x",
        filename := "f", folder := "d", index := 0 })
  apply h.2 0
  rw [mem_launchesOf, h.1, List.length_replicate]
  rw [show BROWSER_RESTART_EVERY (some 500) = 500 from rfl]
  decide

/-- C9 counterexample: two distinct upload requests (different row lists)
both use the working directory "/srv/work" (their first filesystem effect
removes and recreates that same fixed path) and both write the archive to
the same fixed path "/srv/POD_ZIPS.zip" — working directories and archive
paths are shared, not distinct. -/
theorem C9_shared_state_counterexample :
    ([{ awb := some "A", date := JsValue.nullish }] : List Row) ≠
      [{ awb := some "B", date := JsValue.nullish }] ∧
    (handleUpload (fun _ _ _ => none) none none false "/srv"
        [{ awb := some "A", date := JsValue.nullish }]).2.head? =
      some (FsEffect.removeDir "/srv/work") ∧
    (handleUpload (fun _ _ _ => none) none none false "/srv"
        [{ awb := some "B", date := JsValue.nullish }]).2.head? =
      some (FsEffect.removeDir "/srv/work") ∧
    (handleUpload (fun _ _ _ => none) none none false "/srv"
        [{ awb := some "A", date := JsValue.nullish }]).1 =
      UploadOutcome.download "/srv/POD_ZIPS.zip" "POD_ZIPS.zip" ∧
    (handleUpload (fun _ _ _ => none) none none false "/srv"
        [{ awb := some "B", date := JsValue.nullish }]).1 =
      UploadOutcome.download "/srv/POD_ZIPS.zip" "POD_ZIPS.zip" := by
  refine ⟨by decide, rfl, rfl, rfl, rfl⟩

/-- C9 amended: every upload request that passes validation uses the same
fixed working directory `<cwd>/work` — deleting and recreating it at the
start of the request — and the same fixed archive path
`<cwd>/POD_ZIPS.zip`; nothing about these paths distinguishes one request
from another. -/
theorem C9_fixed_workdir_and_zip (pdfOutcome : PdfOracle)
    (envConc envRestart : Option Int) (isRailwayEnv : Bool) (cwd : String)
    (rows : List Row) (hne : rowsWithAwb rows ≠ []) :
    ∃ effs : List FsEffect,
      handleUpload pdfOutcome envConc envRestart isRailwayEnv cwd rows =
        (UploadOutcome.download (finalZipPathOf cwd) "POD_ZIPS.zip",
          FsEffect.removeDir (workDirOf cwd) :: FsEffect.makeDir (workDirOf cwd) ::
            effs) := by
  unfold handleUpload
  rw [if_neg (fun hc => hne (List.length_eq_zero.1 hc))]
  exact ⟨_, rfl⟩

/-- C9 witness: a concrete non-empty upload goes through the fixed
paths. -/
theorem C9_fixed_workdir_and_zip_witness :
    rowsWithAwb [{ awb := some "A", date := JsValue.nullish }] ≠ [] ∧
    ∃ effs : List FsEffect,
      handleUpload (fun _ _ _ => none) none none false "/srv"
          [{ awb := some "A", date := JsValue.nullish }] =
        (UploadOutcome.download (finalZipPathOf "/srv") "POD_ZIPS.zip",
          FsEffect.removeDir (workDirOf "/srv") :: FsEffect.makeDir (workDirOf "/srv") ::
            effs) :=
  ⟨by decide,
    C9_fixed_workdir_and_zip (fun _ _ _ => none) none none false "/srv"
      [{ awb := some "A", date := JsValue.nullish }] (by decide)⟩

end PodGen
